import Mathlib

/-!
Verification development for the document ingestion & chunking pipeline
(`app/core/document_processor.py`, `app/core/embeddings.py`,
`app/api/routes/documents.py`).

Texts are modelled as `List Char`; Python ints appearing as sizes are `Nat`.
The `RecursiveCharacterTextSplitter` used by the processor (configured with
`keep_separator=True`, `strip_whitespace=True`, `is_separator_regex=False`,
`length_function=len`, `add_start_index=False`) is embedded faithfully from
`langchain_text_splitters` (`_split_text_with_regex`, `_merge_splits`,
`_join_docs`, `_split_text`).
-/

namespace RagQnA

abbrev Str := List Char

/-- Python `str.strip()` whitespace set. -/
def isPySpace (c : Char) : Bool :=
  c == ' ' || c == '\t' || c == '\n' || c == '\r' || c == '\x0b' || c == '\x0c'

/-- Python `str.strip()`. -/
def pyStrip (s : Str) : Str :=
  ((s.dropWhile isPySpace).reverse.dropWhile isPySpace).reverse

/-- Test whether the text (second argument) starts with the pattern. -/
def startsWith : Str → Str → Bool
  | [], _ => true
  | _ :: _, [] => false
  | p :: ps, c :: cs => p == c && startsWith ps cs

/-- Test whether `pat` occurs as a contiguous substring of the text
(`re.search` of the escaped literal pattern). -/
def containsSub (pat : Str) : Str → Bool
  | [] => startsWith pat []
  | c :: cs => startsWith pat (c :: cs) || containsSub pat cs

/-- Fuel-indexed worker for `pySplitOn`; each step consumes at least one
character of the text, so fuel `t.length` always suffices and the fuel-0 arm
is unreachable from `pySplitOn`. -/
def pySplitOnF (p : Char) (ps : Str) : Nat → Str → List Str
  | _fuel, [] => [[]]
  | 0, c :: cs => [c :: cs]
  | fuel + 1, c :: cs =>
    if startsWith (p :: ps) (c :: cs) then
      [] :: pySplitOnF p ps fuel (cs.drop ps.length)
    else
      match pySplitOnF p ps fuel cs with
      | [] => [[c]]
      | q :: qs => (c :: q) :: qs

/-- Python `re.split` on the literal (escaped) nonempty pattern `p :: ps`:
leftmost, non-overlapping matches; the pieces between matches, in order. -/
def pySplitOn (p : Char) (ps : Str) (t : Str) : List Str :=
  pySplitOnF p ps t.length t

/-- Python `separator.join(docs)`. -/
def joinSep (sep : Str) : List Str → Str
  | [] => []
  | [x] => x
  | x :: y :: ys => x ++ sep ++ joinSep sep (y :: ys)

/-- Embeds `_split_text_with_regex(text, separator, keep_separator=True)` from
`langchain_text_splitters`: split on the literal separator keeping each
separator attached to the front of the following piece; for the empty
separator, split into single characters; drop empty pieces. -/
def splitTextWithRegex (text : Str) (separator : Str) : List Str :=
  match separator with
  | [] => (text.map (fun c => [c])).filter (fun s => s ≠ [])
  | p :: ps =>
    let parts := pySplitOn p ps text
    let splits :=
      match parts with
      | [] => []
      | q :: qs => q :: qs.map (fun r => (p :: ps) ++ r)
    splits.filter (fun s => s ≠ [])

/-- Embeds `TextSplitter._join_docs`: join, strip whitespace, drop if empty. -/
def joinDocs (docs : List Str) (separator : Str) : Option Str :=
  let text := pyStrip (joinSep separator docs)
  if text = [] then none else some text

/-- The pop loop inside `TextSplitter._merge_splits`: keep dropping pieces
from the front of the running buffer while the buffered total exceeds
`chunk_overlap`, or the incoming piece would not fit. The `cur = []` arm of
the loop is unreachable when `total` equals the buffered length (Python
would raise an `IndexError` there). -/
def popLoop (chunk_size chunk_overlap sepLen dLen : Nat) :
    List Str → Nat → List Str × Nat
  | [], total => ([], total)
  | c :: cs, total =>
    if total > chunk_overlap ∨
        (total + dLen + sepLen > chunk_size ∧ total > 0) then
      popLoop chunk_size chunk_overlap sepLen dLen cs
        (total - (c.length + (if cs ≠ [] then sepLen else 0)))
    else (c :: cs, total)

/-- The `TextSplitter._merge_splits` main loop over the splits, carrying the
current buffer and its accounted length `total`. -/
def mergeSplitsAux (chunk_size chunk_overlap : Nat) (separator : Str) :
    List Str → List Str → Nat → List Str
  | [], cur, _total =>
    match joinDocs cur separator with
    | none => []
    | some doc => [doc]
  | d :: ds, cur, total =>
    let sepLen := separator.length
    let dLen := d.length
    if total + dLen + (if cur ≠ [] then sepLen else 0) > chunk_size then
      if cur ≠ [] then
        let flushed := joinDocs cur separator
        let p := popLoop chunk_size chunk_overlap sepLen dLen cur total
        let rest := mergeSplitsAux chunk_size chunk_overlap separator ds
          (p.1 ++ [d]) (p.2 + dLen + (if p.1 ≠ [] then sepLen else 0))
        match flushed with
        | none => rest
        | some doc => doc :: rest
      else
        mergeSplitsAux chunk_size chunk_overlap separator ds [d] (total + dLen)
    else
      mergeSplitsAux chunk_size chunk_overlap separator ds (cur ++ [d])
        (total + dLen + (if cur ≠ [] then sepLen else 0))

/-- Embeds `TextSplitter._merge_splits`. -/
def mergeSplits (chunk_size chunk_overlap : Nat) (separator : Str)
    (splits : List Str) : List Str :=
  mergeSplitsAux chunk_size chunk_overlap separator splits [] 0

/-- The separator-selection prologue of
`RecursiveCharacterTextSplitter._split_text`: first separator that is empty
or occurs in the text, together with the remaining separators after it. -/
def chooseSep (text : Str) : List Str → Option (Str × List Str)
  | [] => none
  | s :: rest =>
    if s = [] then some ([], [])
    else if containsSub s text then some (s, rest)
    else chooseSep text rest

/-- The per-split loop of `RecursiveCharacterTextSplitter._split_text`:
buffer splits shorter than `chunk_size`; on an over-long split, flush the
buffer through `_merge_splits` (with separator `""`, since
`keep_separator=True`), then either emit the split as-is (no separators
left, `recFn = none`) or recurse into it (`recFn = some f`). -/
def splitLoopF (chunk_size chunk_overlap : Nat) (recFn : Option (Str → List Str)) :
    List Str → List Str → List Str
  | [], goods =>
    if goods ≠ [] then mergeSplits chunk_size chunk_overlap [] goods else []
  | s :: rest, goods =>
    if s.length < chunk_size then
      splitLoopF chunk_size chunk_overlap recFn rest (goods ++ [s])
    else
      (if goods ≠ [] then mergeSplits chunk_size chunk_overlap [] goods else []) ++
      (match recFn with
       | none => [s]
       | some f => f s) ++
      splitLoopF chunk_size chunk_overlap recFn rest []

/-- Embeds `RecursiveCharacterTextSplitter._split_text(text, separators)`.
The fuel is the length of the separator list; every recursive call uses a
strict suffix of the separators, so fuel `separators.length` suffices and
the fuel-exhausted arm is unreachable from `split_text`. -/
def splitTextFuel (chunk_size chunk_overlap : Nat) :
    Nat → List Str → Str → List Str
  | 0, _seps, text => [text]
  | fuel + 1, seps, text =>
    let sn :=
      match chooseSep text seps with
      | some r => r
      | none => (seps.getLastD [], [])
    let splits := splitTextWithRegex text sn.1
    splitLoopF chunk_size chunk_overlap
      (if sn.2 = [] then none
       else some (splitTextFuel chunk_size chunk_overlap fuel sn.2))
      splits []

structure RecursiveCharacterTextSplitter where
  chunk_size : Nat
  chunk_overlap : Nat
  separators : List Str
deriving DecidableEq, Repr

/-- Embeds `RecursiveCharacterTextSplitter.split_text`. -/
def RecursiveCharacterTextSplitter.split_text
    (r : RecursiveCharacterTextSplitter) (text : Str) : List Str :=
  splitTextFuel r.chunk_size r.chunk_overlap r.separators.length r.separators text

/-- Embeds `langchain_core.documents.Document`: page content plus metadata
(metadata modelled as an association list, i.e. a Python dict). -/
structure Document where
  page_content : Str
  metadata : List (Str × Str)
deriving DecidableEq, Repr

/-- Embeds `TextSplitter.split_documents` via `create_documents` (with
`add_start_index=False`): each chunk of each document's text becomes a
document carrying a copy of the parent's metadata, in order. -/
def RecursiveCharacterTextSplitter.split_documents
    (r : RecursiveCharacterTextSplitter) (documents : List Document) :
    List Document :=
  (documents.map (fun doc =>
    (r.split_text doc.page_content).map
      (fun chunk => Document.mk chunk doc.metadata))).flatten

/-- Python dict assignment `d[k] = v` on an association list. -/
def setMeta : List (Str × Str) → Str → Str → List (Str × Str)
  | [], k, v => [(k, v)]
  | (k', v') :: rest, k, v =>
    if k' = k then (k, v) :: rest else (k', v') :: setMeta rest k v

/-- Python dict lookup `d.get(k)` on an association list. -/
def metaGet : List (Str × Str) → Str → Option Str
  | [], _ => none
  | (k', v) :: rest, k => if k' = k then some v else metaGet rest k

/-- Errors raised by the processor and its collaborators.
`unsupportedExtension` is the `ValueError` raised for an extension outside
`SUPPORTED_EXTENSIONS`; `loaderError` stands for any exception a format
loader raises; `readError` for an exception while reading the uploaded
stream; `httpError` for the route's `HTTPException`. -/
inductive PyErr where
  | unsupportedExtension (extension : Str)
  | loaderError (message : Str)
  | readError (message : Str)
  | httpError (code : Nat)
deriving DecidableEq, Repr

/-- The external format loaders (`PyPDFLoader`, `TextLoader`, `CSVLoader`
from `langchain_community`), abstracted as path-indexed results; each may
fail (e.g. a decode error). -/
structure Loaders where
  load_pdf : Str → Except PyErr (List Document)
  load_text : Str → Except PyErr (List Document)
  load_csv : Str → Except PyErr (List Document)

/-- Python `pathlib.Path(p).name`: the part after the last `/`. -/
def pathName (p : Str) : Str :=
  (p.reverse.takeWhile (fun c => c ≠ '/')).reverse

/-- Python `pathlib.Path(p).suffix`: from the last `.` of the name to its
end, provided that `.` is neither the first nor the last character of the
name; otherwise empty. -/
def pySuffix (p : Str) : Str :=
  let name := pathName p
  let post := name.reverse.takeWhile (fun c => c ≠ '.')
  if post.length = name.length then []
  else if post.length = 0 then []
  else if post.length = name.length - 1 then []
  else '.' :: post.reverse

/-- Python `str.lower()` (ASCII range suffices for the extensions here). -/
def pyLower (s : Str) : Str := s.map Char.toLower

/-- Process-wide configuration. Modelled from the spec: `app.config` is not
part of the given sources; per the spec it supplies the default
`chunk_size` and `chunk_overlap`, read once. -/
structure Settings where
  chunk_size : Nat
  chunk_overlap : Nat
deriving DecidableEq, Repr

/-- Python's `x or default` for an optional int argument: `None` and `0`
are falsy and select the default. -/
def pyOr (v : Option Nat) (d : Nat) : Nat :=
  match v with
  | none => d
  | some n => if n = 0 then d else n

structure DocumentProcessor where
  chunk_size : Nat
  chunk_overlap : Nat
deriving DecidableEq, Repr

def DocumentProcessor.SUPPORTED_EXTENSIONS : List Str :=
  [".txt".data, ".pdf".data, ".csv".data]

/-- Embeds `DocumentProcessor.__init__`: `self.chunk_size = chunk_size or
settings.chunk_size` and likewise for the overlap. -/
def DocumentProcessor.init (settings : Settings)
    (chunk_size chunk_overlap : Option Nat) : DocumentProcessor :=
  { chunk_size := pyOr chunk_size settings.chunk_size
    chunk_overlap := pyOr chunk_overlap settings.chunk_overlap }

/-- The source's separator list passed to `RecursiveCharacterTextSplitter`. -/
def srcSeparators : List Str :=
  ["\n\n".data, "\n".data, ". ".data, " ".data, "".data]

/-- The splitter the constructor builds and stores as `self.text_splitter`
(chunk size, overlap, and the source's separator list). -/
def DocumentProcessor.text_splitter (dp : DocumentProcessor) :
    RecursiveCharacterTextSplitter :=
  ⟨dp.chunk_size, dp.chunk_overlap, srcSeparators⟩

/-- Embeds `DocumentProcessor.load_file`: validate the lowercased suffix, then
dispatch to the loader for that extension. -/
def DocumentProcessor.load_file (_dp : DocumentProcessor) (L : Loaders)
    (file_path : Str) : Except PyErr (List Document) :=
  let extension := pyLower (pySuffix file_path)
  if extension ∉ DocumentProcessor.SUPPORTED_EXTENSIONS then
    .error (.unsupportedExtension extension)
  else if extension = ".pdf".data then L.load_pdf file_path
  else if extension = ".txt".data then L.load_text file_path
  else L.load_csv file_path

/-- Embeds `DocumentProcessor.split_documents`. -/
def DocumentProcessor.split_documents (dp : DocumentProcessor)
    (documents : List Document) : List Document :=
  dp.text_splitter.split_documents documents

/-- Embeds `DocumentProcessor.process_file`: load, then split. -/
def DocumentProcessor.process_file (dp : DocumentProcessor) (L : Loaders)
    (file_path : Str) : Except PyErr (List Document) :=
  match dp.load_file L file_path with
  | .error e => .error e
  | .ok documents => .ok (dp.split_documents documents)

deriving instance DecidableEq for Except

/-- Observable outcome of `load_from_uploaded_file` / `process_upload`:
the returned value or raised error, plus whether the temporary file was
created, whether it was deleted, and whether the uploaded stream was read. -/
structure UploadResult where
  result : Except PyErr (List Document)
  tmp_created : Bool
  tmp_deleted : Bool
  stream_read : Bool
deriving DecidableEq, Repr

/-- Python `doc.metadata["source"] = filename`. -/
def setMetaSource (doc : Document) (filename : Str) : Document :=
  { doc with metadata := setMeta doc.metadata "source".data filename }

/-- Embeds `DocumentProcessor.load_from_uploaded_file`: validate the lowercased
suffix of `filename`; write the stream to a `NamedTemporaryFile`
(`delete=False`, `suffix=extension`) whose path is `tmpBase ++ extension`
(`read` models `file.read()`; a failure there escapes before the
`try/finally`, so the created temporary file is not unlinked); then load
from the temporary path, overwrite each document's `source` metadata with
the original filename, and unlink the temporary file in `finally`. -/
def DocumentProcessor.load_from_uploaded_file (dp : DocumentProcessor)
    (L : Loaders) (read : Except PyErr Unit) (filename : Str) (tmpBase : Str) :
    UploadResult :=
  let extension := pyLower (pySuffix filename)
  if extension ∉ DocumentProcessor.SUPPORTED_EXTENSIONS then
    ⟨.error (.unsupportedExtension extension), false, false, false⟩
  else
    let tmp_path := tmpBase ++ extension
    match read with
    | .error e => ⟨.error e, true, false, true⟩
    | .ok () =>
      match dp.load_file L tmp_path with
      | .error e => ⟨.error e, true, true, true⟩
      | .ok documents =>
        ⟨.ok (documents.map (fun d => setMetaSource d filename)), true, true, true⟩

/-- Embeds `DocumentProcessor.process_upload`: `load_from_uploaded_file`, then
split (by the time splitting runs, the temporary file has already been
removed). -/
def DocumentProcessor.process_upload (dp : DocumentProcessor) (L : Loaders)
    (read : Except PyErr Unit) (filename : Str) (tmpBase : Str) : UploadResult :=
  let r := dp.load_from_uploaded_file L read filename tmpBase
  match r.result with
  | .error e => { r with result := .error e }
  | .ok documents => { r with result := .ok (dp.split_documents documents) }

/-- The batch handed to the vector store by the `/documents/upload` route
(`upload_document` in `app/api/routes/documents.py`): the route constructs
`DocumentProcessor()` with defaults and passes the result of
`load_from_uploaded_file` straight to `vector_store.add_documents`. -/
def upload_document_batch (settings : Settings) (L : Loaders)
    (read : Except PyErr Unit) (filename : Str) (tmpBase : Str) :
    Except PyErr (List Document) :=
  if filename = [] then .error (.httpError 400)
  else
    let processor := DocumentProcessor.init settings none none
    (processor.load_from_uploaded_file L read filename tmpBase).result

/-- State of the `functools.lru_cache` on `get_embedding_model`, together
with a fresh-instance counter: `next_id` counts `OpenAIEmbeddings`
constructions, and an instance is identified by the counter value at its
construction. -/
structure EmbCache where
  cached : Option Nat
  next_id : Nat
deriving DecidableEq, Repr

/-- Embeds `get_embedding_model` under `@lru_cache`: return the memoized instance
if present, otherwise construct a fresh instance and memoize it. -/
def get_embedding_model : EmbCache → Nat × EmbCache
  | ⟨some h, n⟩ => (h, ⟨some h, n⟩)
  | ⟨none, n⟩ => (n, ⟨some n, n + 1⟩)

structure EmbeddingService where
  embedding_model : Nat
deriving DecidableEq, Repr

/-- Embeds `EmbeddingService.__init__`: `self.embedding_model =
get_embedding_model()`. -/
def EmbeddingService.init (st : EmbCache) : EmbeddingService × EmbCache :=
  let r := get_embedding_model st
  (⟨r.1⟩, r.2)

/-- Construct `n` `EmbeddingService` instances in sequence, threading the
process-wide cache state. -/
def mkServices : Nat → EmbCache → List EmbeddingService × EmbCache
  | 0, st => ([], st)
  | n + 1, st =>
    let r := EmbeddingService.init st
    let rest := mkServices n r.2
    (r.1 :: rest.1, rest.2)

/-! ### Basic lemmas about the splitter -/

theorem pyStrip_length_le (s : Str) : (pyStrip s).length ≤ s.length := by
  unfold pyStrip
  rw [List.length_reverse]
  refine le_trans (List.dropWhile_sublist _).length_le ?_
  rw [List.length_reverse]
  exact (List.dropWhile_sublist _).length_le

theorem joinSep_nil_sep : ∀ l : List Str, joinSep [] l = l.flatten
  | [] => rfl
  | [x] => by simp [joinSep]
  | x :: y :: ys => by
    rw [joinSep, joinSep_nil_sep (y :: ys)]
    simp

theorem joinDocs_nil_sep_length_le (cur : List Str) (doc : Str)
    (h : joinDocs cur [] = some doc) : doc.length ≤ cur.flatten.length := by
  unfold joinDocs at h
  by_cases he : pyStrip (joinSep [] cur) = []
  · simp [he] at h
  · simp only [he, if_neg, ite_false, Option.some.injEq] at h
    rw [← h]
    calc (pyStrip (joinSep [] cur)).length
        ≤ (joinSep [] cur).length := pyStrip_length_le _
      _ = cur.flatten.length := by rw [joinSep_nil_sep]

theorem popLoop_spec (cs co dLen : Nat) :
    ∀ cur total, total = cur.flatten.length →
      ((popLoop cs co 0 dLen cur total).2
          = (popLoop cs co 0 dLen cur total).1.flatten.length
        ∧ (∃ k, (popLoop cs co 0 dLen cur total).1 = cur.drop k)
        ∧ (popLoop cs co 0 dLen cur total).2 ≤ co
        ∧ ((popLoop cs co 0 dLen cur total).2 + dLen ≤ cs
            ∨ (popLoop cs co 0 dLen cur total).2 = 0))
  | [], total, htotal => by
    have h0 : total = 0 := by simpa using htotal
    subst h0
    rw [popLoop]
    simp
  | c :: cs', total, htotal => by
    rw [popLoop]
    simp only [ite_self]
    by_cases hcond : total > co ∨ (total + dLen + 0 > cs ∧ total > 0)
    · rw [if_pos hcond]
      have hflat : total = c.length + cs'.flatten.length := by simpa using htotal
      obtain ⟨h1, ⟨k, hk⟩, h3, h4⟩ :=
        popLoop_spec cs co dLen cs' (total - (List.length c + 0)) (by omega)
      exact ⟨h1, ⟨k + 1, by simpa using hk⟩, h3, h4⟩
    · rw [if_neg hcond]
      push_neg at hcond
      exact ⟨htotal, ⟨0, rfl⟩, hcond.1, by omega⟩

theorem mergeSplitsAux_bound (cs co : Nat) :
    ∀ splits cur total, (∀ s ∈ splits, s.length < cs) →
      total = cur.flatten.length → total ≤ cs →
      ∀ c ∈ mergeSplitsAux cs co [] splits cur total, c.length ≤ cs
  | [], cur, total, _hs, htot, hle, c, hc => by
    rw [mergeSplitsAux] at hc
    rcases hj : joinDocs cur [] with _ | doc
    · rw [hj] at hc; simp at hc
    · rw [hj] at hc
      simp only [List.mem_singleton] at hc
      subst hc
      exact le_trans (joinDocs_nil_sep_length_le cur c hj) (htot ▸ hle)
  | d :: ds, cur, total, hs, htot, hle, c, hc => by
    have hd : d.length < cs := hs d (List.mem_cons_self d ds)
    have hs' : ∀ s ∈ ds, s.length < cs := fun s h => hs s (List.mem_cons_of_mem d h)
    rw [mergeSplitsAux] at hc
    simp only [List.length_nil, ite_self, Nat.add_zero] at hc
    by_cases hover : total + d.length > cs
    · rw [if_pos hover] at hc
      by_cases hcur : cur = []
      · rw [if_neg (by simp [hcur])] at hc
        have h0 : total = 0 := by simp [hcur] at htot; omega
        exact mergeSplitsAux_bound cs co ds [d] (total + d.length) hs'
          (by simp [h0]) (by omega) c hc
      · rw [if_pos (by simpa using hcur)] at hc
        obtain ⟨h1, ⟨k, hk⟩, h3, h4⟩ := popLoop_spec cs co d.length cur total htot
        have htot'' : (popLoop cs co 0 d.length cur total).2 + d.length
            = ((popLoop cs co 0 d.length cur total).1 ++ [d]).flatten.length := by
          simp [h1]
        have hle'' : (popLoop cs co 0 d.length cur total).2 + d.length ≤ cs := by
          omega
        rcases hj : joinDocs cur [] with _ | doc
        · rw [hj] at hc
          exact mergeSplitsAux_bound cs co ds _ _ hs' htot'' hle'' c hc
        · rw [hj] at hc
          rcases List.mem_cons.mp hc with hcd | hcr
          · subst hcd
            exact le_trans (joinDocs_nil_sep_length_le cur c hj) (htot ▸ hle)
          · exact mergeSplitsAux_bound cs co ds _ _ hs' htot'' hle'' c hcr
    · rw [if_neg hover] at hc
      exact mergeSplitsAux_bound cs co ds (cur ++ [d]) (total + d.length) hs'
        (by simp [htot]) (by omega) c hc

theorem mergeSplits_bound (cs co : Nat) (splits : List Str)
    (hs : ∀ s ∈ splits, s.length < cs) :
    ∀ c ∈ mergeSplits cs co [] splits, c.length ≤ cs :=
  mergeSplitsAux_bound cs co splits [] 0 hs rfl (Nat.zero_le cs)

theorem splitLoopF_bound (cs co : Nat) (recFn : Option (Str → List Str))
    (hrec : ∀ f, recFn = some f → ∀ s c, c ∈ f s → c.length ≤ cs) :
    ∀ splits goods,
      (∀ g ∈ goods, g.length < cs) →
      (∀ s ∈ splits, recFn = none → s.length ≤ cs) →
      ∀ c ∈ splitLoopF cs co recFn splits goods, c.length ≤ cs
  | [], goods, hg, _hn, c, hc => by
    simp only [splitLoopF] at hc
    split at hc
    · exact mergeSplits_bound cs co goods hg c hc
    · simp at hc
  | s :: rest, goods, hg, hn, c, hc => by
    simp only [splitLoopF] at hc
    by_cases hlen : s.length < cs
    · rw [if_pos hlen] at hc
      refine splitLoopF_bound cs co recFn hrec rest (goods ++ [s]) ?_
        (fun x hx => hn x (List.mem_cons_of_mem s hx)) c hc
      intro g hgm
      rcases List.mem_append.mp hgm with h1 | h1
      · exact hg g h1
      · simp at h1; subst h1; exact hlen
    · rw [if_neg hlen] at hc
      rcases List.mem_append.mp hc with hc1 | hc2
      · rcases List.mem_append.mp hc1 with hm | hmid
        · split at hm
          · exact mergeSplits_bound cs co goods hg c hm
          · simp at hm
        · rcases hr : recFn with _ | f
          · rw [hr] at hmid
            simp only [List.mem_singleton] at hmid
            subst hmid
            exact hn c (List.mem_cons_self c rest) hr
          · rw [hr] at hmid
            exact hrec f hr s c hmid
      · exact splitLoopF_bound cs co recFn hrec rest [] (by simp)
          (fun x hx => hn x (List.mem_cons_of_mem s hx)) c hc2

theorem splitTextWithRegex_nil_sep_mem (text : Str) :
    ∀ s ∈ splitTextWithRegex text [], s.length = 1 := by
  intro s hs
  unfold splitTextWithRegex at hs
  rcases List.mem_filter.mp hs with ⟨hm, -⟩
  rcases List.mem_map.mp hm with ⟨ch, -, rfl⟩
  rfl

theorem chooseSep_spec (text : Str) :
    ∀ seps : List Str, [] ∈ seps →
      chooseSep text seps = some ([], []) ∨
      ∃ s rest, chooseSep text seps = some (s, rest) ∧ s ≠ [] ∧ [] ∈ rest ∧
        rest.length < seps.length
  | [], h => absurd h (List.not_mem_nil _)
  | s :: rest, h => by
    rw [chooseSep]
    by_cases hs : s = []
    · left; rw [if_pos hs]
    · rw [if_neg hs]
      have hmem : [] ∈ rest := by
        rcases List.mem_cons.mp h with h1 | h1
        · exact absurd h1.symm hs
        · exact h1
      by_cases hocc : containsSub s text = true
      · right
        exact ⟨s, rest, by rw [if_pos hocc], hs, hmem, by simp⟩
      · rw [if_neg hocc]
        rcases chooseSep_spec text rest hmem with h1 | ⟨s', r', h1, h2, h3, h4⟩
        · left; exact h1
        · right; exact ⟨s', r', h1, h2, h3, by simp; omega⟩

theorem splitTextFuel_bound (cs co : Nat) (hcs : 1 ≤ cs) :
    ∀ fuel seps text, [] ∈ seps → seps.length ≤ fuel →
      ∀ c ∈ splitTextFuel cs co fuel seps text, c.length ≤ cs
  | 0, seps, _text, hmem, hlen, _c, _hc => by
    have : seps = [] := List.length_eq_zero.mp (Nat.le_zero.mp hlen)
    subst this
    exact absurd hmem (List.not_mem_nil _)
  | fuel + 1, seps, text, hmem, hlen, c, hc => by
    rw [splitTextFuel] at hc
    rcases chooseSep_spec text seps hmem with hspec | ⟨s, rest, hspec, _hsne, hrest, hrlen⟩
    · rw [hspec] at hc
      simp only [if_pos rfl] at hc
      exact splitLoopF_bound cs co none (fun f hf => by cases hf) _ []
        (by simp)
        (fun x hx _ => by rw [splitTextWithRegex_nil_sep_mem text x hx]; exact hcs)
        c hc
    · rw [hspec] at hc
      have hrne : rest ≠ [] := fun h => by subst h; exact absurd hrest (List.not_mem_nil _)
      simp only [if_neg hrne] at hc
      refine splitLoopF_bound cs co _ ?_ _ [] (by simp) (fun x _hx hfn => by cases hfn) c hc
      intro f hf s' c' hc'
      cases hf
      exact splitTextFuel_bound cs co hcs fuel rest s' hrest (by omega) c' hc'

/-- Every chunk produced by the splitter as the source configures it
(separator list ending in `""`) is at most `chunk_size` characters long. -/
theorem split_text_bound (r : RecursiveCharacterTextSplitter)
    (hmem : [] ∈ r.separators) (hcs : 1 ≤ r.chunk_size) (text : Str) :
    ∀ c ∈ r.split_text text, c.length ≤ r.chunk_size :=
  splitTextFuel_bound r.chunk_size r.chunk_overlap hcs r.separators.length
    r.separators text hmem (le_refl _)

theorem split_documents_bound (r : RecursiveCharacterTextSplitter)
    (hmem : [] ∈ r.separators) (hcs : 1 ≤ r.chunk_size) (docs : List Document) :
    ∀ d ∈ r.split_documents docs, d.page_content.length ≤ r.chunk_size := by
  intro d hd
  unfold RecursiveCharacterTextSplitter.split_documents at hd
  rcases List.mem_flatten.mp hd with ⟨l, hl, hdl⟩
  rcases List.mem_map.mp hl with ⟨parent, -, rfl⟩
  rcases List.mem_map.mp hdl with ⟨chunk, hchunk, rfl⟩
  exact split_text_bound r hmem hcs parent.page_content chunk hchunk

/-! ### The splits are a partition of the text -/

theorem startsWith_append : ∀ pat t : Str, startsWith pat t = true →
    t = pat ++ t.drop pat.length
  | [], t, _ => rfl
  | _ :: _, [], h => by cases h
  | p :: ps, c :: cs, h => by
    rw [startsWith, Bool.and_eq_true, beq_iff_eq] at h
    obtain ⟨rfl, h2⟩ := h
    simpa using startsWith_append ps cs h2

theorem pySplitOnF_ne_nil (p : Char) (ps : Str) : ∀ fuel t,
    pySplitOnF p ps fuel t ≠ []
  | fuel, [] => by cases fuel <;> (rw [pySplitOnF]; simp)
  | 0, _c :: _cs => by rw [pySplitOnF]; simp
  | fuel + 1, c :: cs => by
    rw [pySplitOnF]
    split
    · simp
    · rcases h : pySplitOnF p ps fuel cs with _ | ⟨q, qs⟩ <;> simp [h]

theorem pySplitOn_ne_nil (p : Char) (ps : Str) (t : Str) :
    pySplitOn p ps t ≠ [] :=
  pySplitOnF_ne_nil p ps t.length t

theorem joinSep_cons_head (sep : Str) (c : Char) (q : Str) (qs : List Str) :
    joinSep sep ((c :: q) :: qs) = c :: joinSep sep (q :: qs) := by
  cases qs <;> simp [joinSep]

theorem pySplitOnF_join (p : Char) (ps : Str) :
    ∀ fuel t, joinSep (p :: ps) (pySplitOnF p ps fuel t) = t
  | fuel, [] => by cases fuel <;> (rw [pySplitOnF]; rfl)
  | 0, _c :: _cs => by rw [pySplitOnF]; rfl
  | fuel + 1, c :: cs => by
    rw [pySplitOnF]
    by_cases h : startsWith (p :: ps) (c :: cs) = true
    · rw [if_pos h]
      rcases hq : pySplitOnF p ps fuel (cs.drop ps.length) with _ | ⟨q, qs⟩
      · exact absurd hq (pySplitOnF_ne_nil p ps fuel _)
      · have IH := pySplitOnF_join p ps fuel (cs.drop ps.length)
        rw [hq] at IH
        rw [joinSep, IH]
        simpa using (startsWith_append (p :: ps) (c :: cs) h).symm
    · rw [if_neg h]
      rcases hq : pySplitOnF p ps fuel cs with _ | ⟨q, qs⟩
      · exact absurd hq (pySplitOnF_ne_nil p ps fuel _)
      · have IH := pySplitOnF_join p ps fuel cs
        rw [hq] at IH
        rw [joinSep_cons_head, IH]

theorem pySplitOn_join (p : Char) (ps : Str) :
    ∀ t, joinSep (p :: ps) (pySplitOn p ps t) = t :=
  fun t => pySplitOnF_join p ps t.length t

theorem flatten_filter_ne_nil : ∀ l : List Str,
    (l.filter (fun s => s ≠ [])).flatten = l.flatten
  | [] => rfl
  | x :: xs => by
    by_cases hx : x = []
    · subst hx; simpa using flatten_filter_ne_nil xs
    · simp only [List.filter_cons]
      rw [if_pos (by simp [hx])]
      simp only [List.flatten_cons]
      rw [flatten_filter_ne_nil xs]

theorem flatten_map_singleton : ∀ t : Str, (t.map (fun c => [c])).flatten = t
  | [] => rfl
  | c :: cs => by simpa using flatten_map_singleton cs

theorem flatten_cons_map_sep (sep : Str) :
    ∀ (q : Str) (qs : List Str),
      (q :: qs.map (fun r => sep ++ r)).flatten = joinSep sep (q :: qs)
  | q, [] => by simp [joinSep]
  | q, r :: rs => by
    have IH := flatten_cons_map_sep sep r rs
    simp only [List.map_cons, List.flatten_cons] at IH ⊢
    rw [joinSep, ← List.append_assoc, ← List.append_assoc] at *
    simp only [List.append_assoc]
    rw [IH]

theorem splitTextWithRegex_flatten (text : Str) (sep : Str) :
    (splitTextWithRegex text sep).flatten = text := by
  unfold splitTextWithRegex
  cases sep with
  | nil => rw [flatten_filter_ne_nil, flatten_map_singleton]
  | cons p ps =>
    rcases hq : pySplitOn p ps text with _ | ⟨q, qs⟩
    · exact absurd hq (pySplitOn_ne_nil p ps _)
    · simp only [hq]
      rw [flatten_filter_ne_nil, flatten_cons_map_sep]
      have := pySplitOn_join p ps text
      rw [hq] at this
      exact this

theorem splitTextWithRegex_mem_ne_nil (text : Str) (sep : Str) :
    ∀ s ∈ splitTextWithRegex text sep, s ≠ [] := by
  intro s hs
  cases sep with
  | nil =>
    unfold splitTextWithRegex at hs
    simpa using (List.mem_filter.mp hs).2
  | cons p ps =>
    unfold splitTextWithRegex at hs
    simp only at hs
    exact by simpa using (List.mem_filter.mp hs).2

theorem mem_length_le_flatten (p : Str) : ∀ l : List Str, p ∈ l →
    p.length ≤ l.flatten.length
  | x :: xs, h => by
    rcases List.mem_cons.mp h with rfl | h1
    · simp
    · simp only [List.flatten_cons, List.length_append]
      exact le_trans (mem_length_le_flatten p xs h1) (by omega)

theorem single_of_full : ∀ (l : List Str) (p : Str), p ∈ l →
    (∀ x ∈ l, x ≠ []) → l.flatten.length ≤ p.length → l = [p]
  | x :: xs, p, hm, hne, hlen => by
    rcases List.mem_cons.mp hm with rfl | h1
    · cases xs with
      | nil => rfl
      | cons y ys =>
        have hy : y ≠ [] := hne y (by simp)
        have : 1 ≤ y.length := by
          cases y with
          | nil => exact absurd rfl hy
          | cons _ _ => simp
        simp only [List.flatten_cons, List.length_append] at hlen
        omega
    · have hx : x ≠ [] := hne x (by simp)
      have h1x : 1 ≤ x.length := by
        cases x with
        | nil => exact absurd rfl hx
        | cons _ _ => simp
      have := mem_length_le_flatten p xs h1
      simp only [List.flatten_cons, List.length_append] at hlen
      omega

/-! ### Identity of the splitter on short, pre-stripped texts -/

theorem mergeSplitsAux_id (cs co : Nat) :
    ∀ splits cur total, total = cur.flatten.length →
      cur.flatten.length + splits.flatten.length ≤ cs →
      mergeSplitsAux cs co [] splits cur total =
        match joinDocs (cur ++ splits) [] with
        | none => []
        | some doc => [doc]
  | [], cur, total, _htot, _hle => by
    rw [mergeSplitsAux, List.append_nil]
  | d :: ds, cur, total, htot, hle => by
    rw [mergeSplitsAux]
    simp only [List.length_nil, ite_self, Nat.add_zero]
    simp only [List.flatten_cons, List.length_append] at hle
    rw [if_neg (by omega)]
    have IH := mergeSplitsAux_id cs co ds (cur ++ [d]) (total + d.length)
      (by simp [htot])
      (by
        simp only [List.flatten_append, List.flatten_cons, List.flatten_nil,
          List.append_nil, List.length_append]
        omega)
    rw [IH]
    simp [List.append_assoc]

theorem splitLoopF_id (cs co : Nat) (recFn : Option (Str → List Str)) :
    ∀ splits goods, (∀ s ∈ splits, s.length < cs) →
      splitLoopF cs co recFn splits goods = mergeSplits cs co [] (goods ++ splits)
  | [], goods, _h => by
    simp only [splitLoopF, List.append_nil]
    by_cases hg : goods = []
    · subst hg
      simp [mergeSplits, mergeSplitsAux, joinDocs, joinSep, pyStrip]
    · rw [if_pos (by simpa using hg)]
  | s :: rest, goods, h => by
    simp only [splitLoopF]
    rw [if_pos (h s (List.mem_cons_self s rest))]
    rw [splitLoopF_id cs co recFn rest (goods ++ [s])
      (fun x hx => h x (List.mem_cons_of_mem s hx))]
    simp [List.append_assoc]

theorem splitTextFuel_id (cs co : Nat) (hcs : 1 ≤ cs) :
    ∀ fuel seps text, [] ∈ seps → seps.length ≤ fuel →
      pyStrip text = text → text ≠ [] → text.length ≤ cs →
      splitTextFuel cs co fuel seps text = [text]
  | 0, seps, _text, hmem, hlen, _hstrip, _hne, _hbound => by
    have : seps = [] := List.length_eq_zero.mp (Nat.le_zero.mp hlen)
    subst this
    exact absurd hmem (List.not_mem_nil _)
  | fuel + 1, seps, text, hmem, hlen, hstrip, hne, hbound => by
    rw [splitTextFuel]
    rcases chooseSep_spec text seps hmem with hspec | ⟨s, rest, hspec, _hsne, hrest, hrlen⟩
    · rw [hspec]
      rw [if_pos rfl]
      rcases Nat.lt_or_ge 1 cs with hcs2 | hcs1
      · rw [splitLoopF_id cs co none _ []
          (fun x hx => by rw [splitTextWithRegex_nil_sep_mem text x hx]; exact hcs2)]
        rw [List.nil_append, mergeSplits, mergeSplitsAux_id cs co _ [] 0 rfl
          (by simpa [splitTextWithRegex_flatten] using hbound)]
        rw [List.nil_append]
        unfold joinDocs
        rw [joinSep_nil_sep, splitTextWithRegex_flatten, hstrip, if_neg hne]
      · have hcs1' : cs = 1 := by omega
        subst hcs1'
        have htext : ∃ ch, text = [ch] := by
          cases text with
          | nil => exact absurd rfl hne
          | cons ch tl =>
            cases tl with
            | nil => exact ⟨ch, rfl⟩
            | cons _ _ => simp at hbound
        obtain ⟨ch, rfl⟩ := htext
        simp [splitLoopF, splitTextWithRegex, mergeSplits, mergeSplitsAux, joinDocs,
          joinSep, pyStrip]
    · rw [hspec]
      have hrne : rest ≠ [] := fun h => by subst h; exact absurd hrest (List.not_mem_nil _)
      rw [if_neg hrne]
      by_cases hall : ∀ p ∈ splitTextWithRegex text s, p.length < cs
      · rw [splitLoopF_id cs co _ _ [] hall]
        rw [List.nil_append, mergeSplits, mergeSplitsAux_id cs co _ [] 0 rfl
          (by simpa [splitTextWithRegex_flatten] using hbound)]
        rw [List.nil_append]
        unfold joinDocs
        rw [joinSep_nil_sep, splitTextWithRegex_flatten, hstrip, if_neg hne]
      · push_neg at hall
        obtain ⟨p, hpm, hple⟩ := hall
        have hple2 : p.length ≤ text.length := by
          have := mem_length_le_flatten p _ hpm
          rwa [splitTextWithRegex_flatten] at this
        have hsingle : splitTextWithRegex text s = [p] :=
          single_of_full _ p hpm (splitTextWithRegex_mem_ne_nil text s)
            (by rw [splitTextWithRegex_flatten]; omega)
        have hptext : p = text := by
          have := splitTextWithRegex_flatten text s
          rw [hsingle] at this
          simpa using this
        subst hptext
        rw [hsingle]
        simp only [splitLoopF]
        rw [if_neg (by omega)]
        rw [splitTextFuel_id cs co hcs fuel rest p hrest (by omega) hstrip hne hbound]
        simp [splitLoopF]

/-- The splitter as configured by the source returns a document's text
unchanged when it is nonempty, carries no leading or trailing whitespace,
and fits in `chunk_size`. -/
theorem split_text_id (r : RecursiveCharacterTextSplitter)
    (hmem : [] ∈ r.separators) (hcs : 1 ≤ r.chunk_size) (text : Str)
    (hstrip : pyStrip text = text) (hne : text ≠ [])
    (hbound : text.length ≤ r.chunk_size) : r.split_text text = [text] :=
  splitTextFuel_id r.chunk_size r.chunk_overlap hcs r.separators.length
    r.separators text hmem (le_refl _) hstrip hne hbound

/-! ### Document-level lemmas -/

theorem split_documents_id (r : RecursiveCharacterTextSplitter)
    (hmem : [] ∈ r.separators) (hcs : 1 ≤ r.chunk_size) :
    ∀ docs : List Document,
      (∀ d ∈ docs, pyStrip d.page_content = d.page_content ∧
        d.page_content ≠ [] ∧ d.page_content.length ≤ r.chunk_size) →
      r.split_documents docs = docs
  | [], _h => rfl
  | d :: ds, h => by
    obtain ⟨h1, h2, h3⟩ := h d (List.mem_cons_self d ds)
    have IH := split_documents_id r hmem hcs ds
      (fun x hx => h x (List.mem_cons_of_mem d hx))
    unfold RecursiveCharacterTextSplitter.split_documents at IH ⊢
    simp only [List.map_cons, List.flatten_cons]
    rw [split_text_id r hmem hcs d.page_content h1 h2 h3, IH]
    rfl

theorem split_documents_metadata (r : RecursiveCharacterTextSplitter)
    (docs : List Document) :
    ∀ d ∈ r.split_documents docs, ∃ p ∈ docs, d.metadata = p.metadata := by
  intro d hd
  unfold RecursiveCharacterTextSplitter.split_documents at hd
  rcases List.mem_flatten.mp hd with ⟨l, hl, hdl⟩
  rcases List.mem_map.mp hl with ⟨parent, hp, rfl⟩
  rcases List.mem_map.mp hdl with ⟨chunk, _hchunk, rfl⟩
  exact ⟨parent, hp, rfl⟩

theorem metaGet_setMeta : ∀ (m : List (Str × Str)) (k v : Str),
    metaGet (setMeta m k v) k = some v
  | [], k, v => by simp [setMeta, metaGet]
  | (k', v') :: rest, k, v => by
    rw [setMeta]
    by_cases hk : k' = k
    · rw [if_pos hk, metaGet, if_pos rfl]
    · rw [if_neg hk, metaGet, if_neg hk]
      exact metaGet_setMeta rest k v

theorem load_from_uploaded_file_ok_elim (dp : DocumentProcessor) (L : Loaders)
    (read : Except PyErr Unit) (filename tmpBase : Str) (docs : List Document)
    (h : (dp.load_from_uploaded_file L read filename tmpBase).result = .ok docs) :
    ∃ documents,
      dp.load_file L (tmpBase ++ pyLower (pySuffix filename)) = .ok documents ∧
      docs = documents.map (fun d => setMetaSource d filename) := by
  unfold DocumentProcessor.load_from_uploaded_file at h
  by_cases hm : pyLower (pySuffix filename) ∉ DocumentProcessor.SUPPORTED_EXTENSIONS
  · rw [if_pos hm] at h
    simp at h
  · rw [if_neg hm] at h
    cases read with
    | error e => simp at h
    | ok u =>
      cases u
      rcases hl : dp.load_file L (tmpBase ++ pyLower (pySuffix filename)) with e | documents
      · simp [hl] at h
      · simp only [hl] at h
        simp at h
        exact ⟨documents, rfl, h.symm⟩

theorem process_upload_result (dp : DocumentProcessor) (L : Loaders)
    (read : Except PyErr Unit) (filename tmpBase : Str) :
    (dp.process_upload L read filename tmpBase).result =
      match (dp.load_from_uploaded_file L read filename tmpBase).result with
      | .error e => .error e
      | .ok documents => .ok (dp.split_documents documents) := by
  unfold DocumentProcessor.process_upload
  rcases h : (dp.load_from_uploaded_file L read filename tmpBase).result
      with e | documents <;> simp [h]

theorem process_upload_flags (dp : DocumentProcessor) (L : Loaders)
    (read : Except PyErr Unit) (filename tmpBase : Str) :
    (dp.process_upload L read filename tmpBase).tmp_created
        = (dp.load_from_uploaded_file L read filename tmpBase).tmp_created ∧
    (dp.process_upload L read filename tmpBase).tmp_deleted
        = (dp.load_from_uploaded_file L read filename tmpBase).tmp_deleted ∧
    (dp.process_upload L read filename tmpBase).stream_read
        = (dp.load_from_uploaded_file L read filename tmpBase).stream_read := by
  unfold DocumentProcessor.process_upload
  rcases h : (dp.load_from_uploaded_file L read filename tmpBase).result
      with e | documents <;> simp [h]

theorem mkServices_cached (h k : Nat) : ∀ m,
    (mkServices m ⟨some h, k⟩).1 = List.replicate m ⟨h⟩ ∧
    (mkServices m ⟨some h, k⟩).2 = ⟨some h, k⟩
  | 0 => ⟨rfl, rfl⟩
  | m + 1 => by
    have IH := mkServices_cached h k m
    simp only [mkServices, EmbeddingService.init, get_embedding_model]
    rw [List.replicate_succ]
    exact ⟨by rw [IH.1], IH.2⟩

/-- Concrete loaders used by witnesses: every format yields one document
with text `"aaaa"` and empty metadata. -/
def sampleLoaders : Loaders :=
  ⟨fun _ => .ok [⟨"aaaa".data, []⟩],
   fun _ => .ok [⟨"aaaa".data, []⟩],
   fun _ => .ok [⟨"aaaa".data, []⟩]⟩

/-! ### Claim theorems -/

/-- C1: for every input file with a supported extension, every chunk in the
sequence returned by `process_file` or `process_upload` has text length at
most the configured `chunk_size`. (The claim's allowance for a single
indivisible over-long token is never needed: the `""` fallback separator
hard-cuts any over-long token, so the bound holds unconditionally.) -/
theorem C1_chunk_length_bound (dp : DocumentProcessor) (L : Loaders)
    (read : Except PyErr Unit) (path filename tmpBase : Str)
    (hcs : 1 ≤ dp.chunk_size) :
    (∀ chunks, dp.process_file L path = .ok chunks →
      ∀ c ∈ chunks, c.page_content.length ≤ dp.chunk_size) ∧
    (∀ chunks, (dp.process_upload L read filename tmpBase).result = .ok chunks →
      ∀ c ∈ chunks, c.page_content.length ≤ dp.chunk_size) := by
  have hb : ∀ docs, ∀ c ∈ dp.split_documents docs,
      c.page_content.length ≤ dp.chunk_size :=
    fun docs => split_documents_bound dp.text_splitter
      (show ([] : Str) ∈ srcSeparators by decide) hcs docs
  constructor
  · intro chunks h c hc
    unfold DocumentProcessor.process_file at h
    rcases hl : dp.load_file L path with e | documents
    · rw [hl] at h; simp at h
    · rw [hl] at h
      simp at h
      subst h
      exact hb documents c hc
  · intro chunks h c hc
    rw [process_upload_result] at h
    rcases hl : (dp.load_from_uploaded_file L read filename tmpBase).result
        with e | documents
    · rw [hl] at h; simp at h
    · rw [hl] at h
      simp at h
      subst h
      exact hb documents c hc

theorem C1_witness :
    1 ≤ (DocumentProcessor.mk 3 1).chunk_size ∧
    (∀ chunks,
      (DocumentProcessor.mk 3 1).process_file sampleLoaders "a.txt".data = .ok chunks →
      ∀ c ∈ chunks, c.page_content.length ≤ (DocumentProcessor.mk 3 1).chunk_size) ∧
    (∀ chunks,
      ((DocumentProcessor.mk 3 1).process_upload sampleLoaders (.ok ()) "a.txt".data
          "/t".data).result = .ok chunks →
      ∀ c ∈ chunks, c.page_content.length ≤ (DocumentProcessor.mk 3 1).chunk_size) :=
  ⟨by decide,
   (C1_chunk_length_bound (DocumentProcessor.mk 3 1) sampleLoaders (.ok ())
      "a.txt".data "a.txt".data "/t".data (by decide)).1,
   (C1_chunk_length_bound (DocumentProcessor.mk 3 1) sampleLoaders (.ok ())
      "a.txt".data "a.txt".data "/t".data (by decide)).2⟩

/-- C2: every document returned by `process_upload` (and by
`load_from_uploaded_file`) carries `source` metadata equal to the original
filename — in particular, never the temporary file path (which differs from
the filename whenever `filename ≠ tmpBase ++ extension`). -/
theorem C2_source_metadata (dp : DocumentProcessor) (L : Loaders)
    (read : Except PyErr Unit) (filename tmpBase : Str) :
    (∀ docs, (dp.load_from_uploaded_file L read filename tmpBase).result = .ok docs →
      ∀ d ∈ docs, metaGet d.metadata "source".data = some filename) ∧
    (∀ docs, (dp.process_upload L read filename tmpBase).result = .ok docs →
      ∀ d ∈ docs, metaGet d.metadata "source".data = some filename) ∧
    (filename ≠ tmpBase ++ pyLower (pySuffix filename) →
      ∀ docs, (dp.process_upload L read filename tmpBase).result = .ok docs →
      ∀ d ∈ docs,
        metaGet d.metadata "source".data
          ≠ some (tmpBase ++ pyLower (pySuffix filename))) := by
  have hload : ∀ docs,
      (dp.load_from_uploaded_file L read filename tmpBase).result = .ok docs →
      ∀ d ∈ docs, metaGet d.metadata "source".data = some filename := by
    intro docs h d hd
    obtain ⟨documents, _hl, rfl⟩ :=
      load_from_uploaded_file_ok_elim dp L read filename tmpBase docs h
    rcases List.mem_map.mp hd with ⟨parent, _hp, rfl⟩
    exact metaGet_setMeta parent.metadata "source".data filename
  have hsplit : ∀ docs,
      (dp.process_upload L read filename tmpBase).result = .ok docs →
      ∀ d ∈ docs, metaGet d.metadata "source".data = some filename := by
    intro docs h d hd
    rw [process_upload_result] at h
    rcases hl : (dp.load_from_uploaded_file L read filename tmpBase).result
        with e | documents
    · rw [hl] at h; simp at h
    · rw [hl] at h
      simp at h
      subst h
      obtain ⟨p, hp, hmeta⟩ :=
        split_documents_metadata dp.text_splitter documents d hd
      rw [hmeta]
      exact hload documents hl p hp
  refine ⟨hload, hsplit, fun hne docs h d hd => ?_⟩
  rw [hsplit docs h d hd]
  intro hcontra
  exact hne (Option.some.inj hcontra)

theorem C2_witness :
    (((DocumentProcessor.mk 3 1).process_upload sampleLoaders (.ok ())
        "a.txt".data "/t".data).result
      = .ok [⟨"aaa".data, [("source".data, "a.txt".data)]⟩,
             ⟨"aa".data, [("source".data, "a.txt".data)]⟩]) ∧
    (∀ d ∈ [Document.mk "aaa".data [("source".data, "a.txt".data)],
            Document.mk "aa".data [("source".data, "a.txt".data)]],
      metaGet d.metadata "source".data = some "a.txt".data) :=
  ⟨by decide,
   (C2_source_metadata (DocumentProcessor.mk 3 1) sampleLoaders (.ok ())
      "a.txt".data "/t".data).2.1 _ (by decide)⟩

/-- C3 counterexample: when reading the uploaded byte stream fails
(`file.read()` raises inside the `with NamedTemporaryFile(delete=False)`
block, before the `try/finally`), the temporary file has been created but is
never deleted — contradicting the claim that the temporary file is deleted
on every exit path including a failure while writing the uploaded bytes. -/
theorem C3_counterexample :
    ((DocumentProcessor.mk 3 1).load_from_uploaded_file sampleLoaders
        (.error (.readError "boom".data)) "a.txt".data "/t".data).tmp_created = true ∧
    ((DocumentProcessor.mk 3 1).load_from_uploaded_file sampleLoaders
        (.error (.readError "boom".data)) "a.txt".data "/t".data).tmp_deleted = false := by
  decide

/-- C3 (amended): once the uploaded bytes have been written successfully,
the temporary file is deleted on every exit path — including when loading
fails, in which case the loader's error propagates to the caller only after
the cleanup has run — and by the time `process_upload` splits, the file is
already deleted. (A failure while writing the uploaded bytes, however,
leaves the temporary file undeleted, as the counterexample shows.) -/
theorem C3_amended_cleanup (dp : DocumentProcessor) (L : Loaders)
    (filename tmpBase : Str) (read : Except PyErr Unit) (hread : read = .ok ()) :
    ((dp.load_from_uploaded_file L read filename tmpBase).tmp_created = true →
      (dp.load_from_uploaded_file L read filename tmpBase).tmp_deleted = true) ∧
    ((dp.process_upload L read filename tmpBase).tmp_created = true →
      (dp.process_upload L read filename tmpBase).tmp_deleted = true) ∧
    (∀ e, dp.load_file L (tmpBase ++ pyLower (pySuffix filename)) = .error e →
      (dp.load_from_uploaded_file L read filename tmpBase).tmp_created = true →
      (dp.load_from_uploaded_file L read filename tmpBase).result = .error e ∧
      (dp.load_from_uploaded_file L read filename tmpBase).tmp_deleted = true) := by
  subst hread
  have hchar :
      (dp.load_from_uploaded_file L (.ok ()) filename tmpBase
          = ⟨.error (.unsupportedExtension (pyLower (pySuffix filename))),
             false, false, false⟩) ∨
      (∃ e, dp.load_file L (tmpBase ++ pyLower (pySuffix filename)) = .error e ∧
        dp.load_from_uploaded_file L (.ok ()) filename tmpBase
          = ⟨.error e, true, true, true⟩) ∨
      (∃ documents,
        dp.load_file L (tmpBase ++ pyLower (pySuffix filename)) = .ok documents ∧
        dp.load_from_uploaded_file L (.ok ()) filename tmpBase
          = ⟨.ok (documents.map (fun d => setMetaSource d filename)),
             true, true, true⟩) := by
    unfold DocumentProcessor.load_from_uploaded_file
    by_cases hm : pyLower (pySuffix filename) ∉ DocumentProcessor.SUPPORTED_EXTENSIONS
    · left; rw [if_pos hm]
    · rw [if_neg hm]
      rcases hl : dp.load_file L (tmpBase ++ pyLower (pySuffix filename))
          with e | documents
      · right; left; exact ⟨e, rfl, by simp [hl]⟩
      · right; right; exact ⟨documents, rfl, by simp [hl]⟩
  obtain ⟨h1, h2, h3⟩ := process_upload_flags dp L (.ok ()) filename tmpBase
  rcases hchar with heq | ⟨e', hl', heq⟩ | ⟨documents, hl', heq⟩ <;>
    rw [heq] at h1 h2 ⊢ <;>
    refine ⟨by simp, by rw [h1, h2]; simp, ?_⟩ <;>
    intro e hle hcreated
  · simp at hcreated
  · rw [hl'] at hle
    cases hle
    exact ⟨rfl, rfl⟩
  · rw [hl'] at hle
    cases hle

theorem C3_amended_witness :
    ((.ok () : Except PyErr Unit) = .ok ()) ∧
    ((((DocumentProcessor.mk 3 1).load_from_uploaded_file sampleLoaders (.ok ())
        "a.txt".data "/t".data).tmp_created = true →
      ((DocumentProcessor.mk 3 1).load_from_uploaded_file sampleLoaders (.ok ())
        "a.txt".data "/t".data).tmp_deleted = true) ∧
    (((DocumentProcessor.mk 3 1).process_upload sampleLoaders (.ok ())
        "a.txt".data "/t".data).tmp_created = true →
      ((DocumentProcessor.mk 3 1).process_upload sampleLoaders (.ok ())
        "a.txt".data "/t".data).tmp_deleted = true) ∧
    (∀ e, (DocumentProcessor.mk 3 1).load_file sampleLoaders
        ("/t".data ++ pyLower (pySuffix "a.txt".data)) = .error e →
      ((DocumentProcessor.mk 3 1).load_from_uploaded_file sampleLoaders (.ok ())
        "a.txt".data "/t".data).tmp_created = true →
      ((DocumentProcessor.mk 3 1).load_from_uploaded_file sampleLoaders (.ok ())
        "a.txt".data "/t".data).result = .error e ∧
      ((DocumentProcessor.mk 3 1).load_from_uploaded_file sampleLoaders (.ok ())
        "a.txt".data "/t".data).tmp_deleted = true)) :=
  ⟨rfl, C3_amended_cleanup (DocumentProcessor.mk 3 1) sampleLoaders
    "a.txt".data "/t".data (.ok ()) rfl⟩

/-- C4 counterexample: with `chunk_size = 5`, `chunk_overlap = 3`, splitting
the single source unit "aaa bbb" yields adjacent chunks "aaa" and "bbb",
both of length at least `chunk_overlap`, whose trailing and leading 3
characters differ — refuting the claimed exact trailing/leading overlap. -/
theorem C4_counterexample :
    (DocumentProcessor.mk 5 3).split_documents [⟨"aaa bbb".data, []⟩]
        = [⟨"aaa".data, []⟩, ⟨"bbb".data, []⟩] ∧
    3 ≤ "aaa".data.length ∧ 3 ≤ "bbb".data.length ∧
    "aaa".data.drop ("aaa".data.length - 3) ≠ "bbb".data.take 3 := by
  decide

/-- C4 (amended): adjacent chunks need not share exactly `chunk_overlap`
trailing/leading characters. What the merge step guarantees instead: when a
chunk is flushed, the pieces retained for the next chunk (by the pop loop of
`_merge_splits`) are a suffix of the flushed buffer whose total length is at
most `chunk_overlap` — possibly zero, so the shared text may be shorter than
`chunk_overlap` or absent. -/
theorem C4_amended_overlap_carry (cs co dLen : Nat) (cur : List Str)
    (total : Nat) (htot : total = cur.flatten.length) :
    (∃ k, (popLoop cs co 0 dLen cur total).1 = cur.drop k) ∧
    (popLoop cs co 0 dLen cur total).1.flatten.length ≤ co := by
  obtain ⟨h1, h2, h3, _h4⟩ := popLoop_spec cs co dLen cur total htot
  exact ⟨h2, h1 ▸ h3⟩

theorem C4_amended_witness :
    (4 : Nat) = ([ "ab".data, "cd".data ] : List Str).flatten.length ∧
    ((∃ k, (popLoop 10 3 0 4 ["ab".data, "cd".data] 4).1
        = (["ab".data, "cd".data] : List Str).drop k) ∧
      (popLoop 10 3 0 4 ["ab".data, "cd".data] 4).1.flatten.length ≤ 3) :=
  ⟨by decide, C4_amended_overlap_carry 10 3 4 ["ab".data, "cd".data] 4 (by decide)⟩

/-- C5 counterexample: a document whose text "a " already fits in
`chunk_size` is not returned unchanged by `split_documents`: the splitter
strips trailing whitespace, so re-splitting an already-chunked sequence is
not a no-op in general. -/
theorem C5_counterexample :
    ("a ".data : Str).length ≤ (DocumentProcessor.mk 10 2).chunk_size ∧
    (DocumentProcessor.mk 10 2).split_documents [⟨"a ".data, []⟩]
        ≠ [⟨"a ".data, []⟩] := by
  decide

/-- C5 (amended): `split_documents` is the identity on a sequence of
documents whose texts are nonempty, carry no leading or trailing whitespace,
and are each at most `chunk_size` long. (The counterexample shows the
whitespace condition is necessary; splitting strips chunk edges.) -/
theorem C5_amended_idempotent (dp : DocumentProcessor) (docs : List Document)
    (hcs : 1 ≤ dp.chunk_size)
    (h : ∀ d ∈ docs, pyStrip d.page_content = d.page_content ∧
      d.page_content ≠ [] ∧ d.page_content.length ≤ dp.chunk_size) :
    dp.split_documents docs = docs :=
  split_documents_id dp.text_splitter
    (show ([] : Str) ∈ srcSeparators by decide) hcs docs h

theorem C5_amended_witness :
    1 ≤ (DocumentProcessor.mk 10 2).chunk_size ∧
    (∀ d ∈ [Document.mk "ab".data []],
      pyStrip d.page_content = d.page_content ∧
      d.page_content ≠ [] ∧
      d.page_content.length ≤ (DocumentProcessor.mk 10 2).chunk_size) ∧
    (DocumentProcessor.mk 10 2).split_documents [⟨"ab".data, []⟩]
        = [⟨"ab".data, []⟩] :=
  ⟨by decide, by decide,
   C5_amended_idempotent (DocumentProcessor.mk 10 2) [⟨"ab".data, []⟩]
     (by decide) (by decide)⟩

/-- C6 (violated by the code): the `/documents/upload` route hands the
output of `load_from_uploaded_file` — the unsplit raw loader units — to the
vector store, never invoking `split_documents`; whenever a loaded unit is
longer than `chunk_size`, the stored batch cannot equal `process_upload`'s
chunked output (whose chunks are all bounded by `chunk_size`). The route's
own docstring, comment and variable name (`chunked_docs`) say the batch
should be the chunked documents. -/
theorem C6_route_skips_splitting (settings : Settings) (L : Loaders)
    (read : Except PyErr Unit) (filename tmpBase : Str) (docs : List Document)
    (d : Document) (hcs : 1 ≤ settings.chunk_size)
    (hb : upload_document_batch settings L read filename tmpBase = .ok docs)
    (hd : d ∈ docs) (hlong : settings.chunk_size < d.page_content.length) :
    upload_document_batch settings L read filename tmpBase ≠
      ((DocumentProcessor.init settings none none).process_upload L read
        filename tmpBase).result := by
  intro heq
  rw [hb, process_upload_result] at heq
  rcases hl : ((DocumentProcessor.init settings none none).load_from_uploaded_file
      L read filename tmpBase).result with e | documents
  · rw [hl] at heq; cases heq
  · rw [hl] at heq
    simp only [Except.ok.injEq] at heq
    rw [heq] at hd
    have hble := split_documents_bound
      (DocumentProcessor.init settings none none).text_splitter
      (show ([] : Str) ∈ srcSeparators by decide) hcs documents d hd
    have hble2 : d.page_content.length ≤ settings.chunk_size := hble
    omega

theorem C6_witness :
    (upload_document_batch ⟨3, 1⟩ sampleLoaders (.ok ()) "a.txt".data "/t".data
        = .ok [⟨"aaaa".data, [("source".data, "a.txt".data)]⟩]) ∧
    upload_document_batch ⟨3, 1⟩ sampleLoaders (.ok ()) "a.txt".data "/t".data ≠
      ((DocumentProcessor.init ⟨3, 1⟩ none none).process_upload sampleLoaders
        (.ok ()) "a.txt".data "/t".data).result :=
  ⟨by decide,
   C6_route_skips_splitting ⟨3, 1⟩ sampleLoaders (.ok ()) "a.txt".data "/t".data
     [⟨"aaaa".data, [("source".data, "a.txt".data)]⟩]
     ⟨"aaaa".data, [("source".data, "a.txt".data)]⟩
     (by decide) (by decide) (by decide) (by decide)⟩

/-- C7 counterexample: explicitly supplying `chunk_overlap = 0` does not
store 0 — Python's `chunk_overlap or settings.chunk_overlap` treats 0 as
falsy and stores the process-wide default instead. -/
theorem C7_counterexample :
    (DocumentProcessor.init ⟨1000, 100⟩ (some 1000) (some 0)).chunk_overlap = 100 ∧
    (DocumentProcessor.init ⟨1000, 100⟩ (some 1000) (some 0)).chunk_overlap ≠ 0 := by
  decide

/-- C7 (amended): the constructor stores an explicitly supplied value
exactly when it is nonzero; the process-wide default is used when the value
is not supplied — or when it is supplied as 0, which Python's `or` idiom
silently replaces by the default. -/
theorem C7_amended_config (settings : Settings) (cs co : Nat)
    (hcs : cs ≠ 0) (hco : co ≠ 0) :
    (DocumentProcessor.init settings (some cs) (some co)).chunk_size = cs ∧
    (DocumentProcessor.init settings (some cs) (some co)).chunk_overlap = co ∧
    (DocumentProcessor.init settings none none).chunk_size = settings.chunk_size ∧
    (DocumentProcessor.init settings none none).chunk_overlap
        = settings.chunk_overlap ∧
    (DocumentProcessor.init settings (some 0) (some 0)).chunk_size
        = settings.chunk_size ∧
    (DocumentProcessor.init settings (some 0) (some 0)).chunk_overlap
        = settings.chunk_overlap := by
  simp [DocumentProcessor.init, pyOr, hcs, hco]

theorem C7_amended_witness :
    (500 : Nat) ≠ 0 ∧ (50 : Nat) ≠ 0 ∧
    ((DocumentProcessor.init ⟨1000, 100⟩ (some 500) (some 50)).chunk_size = 500 ∧
     (DocumentProcessor.init ⟨1000, 100⟩ (some 500) (some 50)).chunk_overlap = 50 ∧
     (DocumentProcessor.init ⟨1000, 100⟩ none none).chunk_size = 1000 ∧
     (DocumentProcessor.init ⟨1000, 100⟩ none none).chunk_overlap = 100 ∧
     (DocumentProcessor.init ⟨1000, 100⟩ (some 0) (some 0)).chunk_size = 1000 ∧
     (DocumentProcessor.init ⟨1000, 100⟩ (some 0) (some 0)).chunk_overlap = 100) :=
  ⟨by decide, by decide,
   C7_amended_config ⟨1000, 100⟩ 500 50 (by decide) (by decide)⟩

/-- C8: for a filename whose lowercased suffix is not `.txt`, `.pdf` or
`.csv`, `load_from_uploaded_file` (and hence `process_upload`) raises the
unsupported-extension `ValueError` before any I/O: no temporary file is
created and the uploaded stream is never read. -/
theorem C8_unsupported_rejected_before_io (dp : DocumentProcessor) (L : Loaders)
    (read : Except PyErr Unit) (filename tmpBase : Str)
    (h : pyLower (pySuffix filename) ∉ DocumentProcessor.SUPPORTED_EXTENSIONS) :
    dp.load_from_uploaded_file L read filename tmpBase =
      ⟨.error (.unsupportedExtension (pyLower (pySuffix filename))),
        false, false, false⟩ ∧
    (dp.process_upload L read filename tmpBase).result =
      .error (.unsupportedExtension (pyLower (pySuffix filename))) ∧
    (dp.process_upload L read filename tmpBase).tmp_created = false ∧
    (dp.process_upload L read filename tmpBase).stream_read = false := by
  have h1 : dp.load_from_uploaded_file L read filename tmpBase =
      ⟨.error (.unsupportedExtension (pyLower (pySuffix filename))),
        false, false, false⟩ := by
    unfold DocumentProcessor.load_from_uploaded_file
    rw [if_pos h]
  obtain ⟨hc, _hd2, hs⟩ := process_upload_flags dp L read filename tmpBase
  have h2 := process_upload_result dp L read filename tmpBase
  rw [h1] at h2 hc hs
  exact ⟨h1, by rw [h2], by rw [hc], by rw [hs]⟩

theorem C8_witness :
    pyLower (pySuffix "a.docx".data) ∉ DocumentProcessor.SUPPORTED_EXTENSIONS ∧
    ((DocumentProcessor.mk 3 1).load_from_uploaded_file sampleLoaders (.ok ())
        "a.docx".data "/t".data =
      ⟨.error (.unsupportedExtension (pyLower (pySuffix "a.docx".data))),
        false, false, false⟩) ∧
    ((DocumentProcessor.mk 3 1).process_upload sampleLoaders (.ok ())
        "a.docx".data "/t".data).tmp_created = false :=
  ⟨by decide,
   (C8_unsupported_rejected_before_io (DocumentProcessor.mk 3 1) sampleLoaders
     (.ok ()) "a.docx".data "/t".data (by decide)).1,
   (C8_unsupported_rejected_before_io (DocumentProcessor.mk 3 1) sampleLoaders
     (.ok ()) "a.docx".data "/t".data (by decide)).2.2.1⟩

/-- C9: the `lru_cache` on `get_embedding_model` constructs the provider at
most once per process: constructing any number `n ≥ 1` of
`EmbeddingService` instances from a fresh cache yields services that all
hold the identical provider handle, with exactly one construction (the
allocation counter ends at 1); and any call made after a first call returns
the same handle and leaves the cache unchanged. -/
theorem C9_provider_constructed_once (n : Nat) (hn : 1 ≤ n) :
    (∀ s ∈ (mkServices n ⟨none, 0⟩).1, s.embedding_model = 0) ∧
    (mkServices n ⟨none, 0⟩).2 = ⟨some 0, 1⟩ ∧
    (∀ st : EmbCache,
      get_embedding_model (get_embedding_model st).2
        = ((get_embedding_model st).1, (get_embedding_model st).2)) := by
  obtain ⟨m, rfl⟩ : ∃ m, n = m + 1 := ⟨n - 1, by omega⟩
  have hstep : mkServices (m + 1) ⟨none, 0⟩
      = (⟨0⟩ :: (mkServices m ⟨some 0, 1⟩).1, (mkServices m ⟨some 0, 1⟩).2) := by
    simp [mkServices, EmbeddingService.init, get_embedding_model]
  obtain ⟨hrep, hst⟩ := mkServices_cached 0 1 m
  refine ⟨?_, ?_, ?_⟩
  · intro s hs
    rw [hstep] at hs
    rcases List.mem_cons.mp hs with rfl | hs2
    · rfl
    · rw [hrep] at hs2
      rw [List.eq_of_mem_replicate hs2]
  · rw [hstep, hst]
  · intro st
    rcases st with ⟨c, k⟩
    cases c <;> rfl

theorem C9_witness :
    1 ≤ (3 : Nat) ∧
    ((∀ s ∈ (mkServices 3 ⟨none, 0⟩).1, s.embedding_model = 0) ∧
     (mkServices 3 ⟨none, 0⟩).2 = ⟨some 0, 1⟩ ∧
     (∀ st : EmbCache,
       get_embedding_model (get_embedding_model st).2
         = ((get_embedding_model st).1, (get_embedding_model st).2))) :=
  ⟨by decide, C9_provider_constructed_once 3 (by decide)⟩

/-- C10: extension validation is case-insensitive: a path or filename whose
suffix lowercases to `.pdf`, `.txt` or `.csv` is accepted and dispatched to
the handler for the lowercased extension by `load_file`, and accepted by
`load_from_uploaded_file` (the temporary file is created and the stream is
read, i.e. no unsupported-extension rejection occurs). -/
theorem C10_case_insensitive_dispatch (dp : DocumentProcessor) (L : Loaders)
    (read : Except PyErr Unit) (path filename tmpBase : Str) :
    (pyLower (pySuffix path) = ".pdf".data →
      dp.load_file L path = L.load_pdf path) ∧
    (pyLower (pySuffix path) = ".txt".data →
      dp.load_file L path = L.load_text path) ∧
    (pyLower (pySuffix path) = ".csv".data →
      dp.load_file L path = L.load_csv path) ∧
    (pyLower (pySuffix filename) ∈ DocumentProcessor.SUPPORTED_EXTENSIONS →
      (dp.load_from_uploaded_file L read filename tmpBase).tmp_created = true ∧
      (dp.load_from_uploaded_file L read filename tmpBase).stream_read = true) := by
  refine ⟨?_, ?_, ?_, ?_⟩
  · intro h
    unfold DocumentProcessor.load_file
    rw [h, if_neg (by decide), if_pos rfl]
  · intro h
    unfold DocumentProcessor.load_file
    rw [h, if_neg (by decide), if_neg (by decide), if_pos rfl]
  · intro h
    unfold DocumentProcessor.load_file
    rw [h, if_neg (by decide), if_neg (by decide), if_neg (by decide)]
  · intro h
    unfold DocumentProcessor.load_from_uploaded_file
    rw [if_neg (by simpa using h)]
    cases read with
    | error e => simp
    | ok u =>
      cases u
      rcases hl : dp.load_file L (tmpBase ++ pyLower (pySuffix filename))
          with e | documents <;> simp [hl]

theorem C10_witness :
    pyLower (pySuffix "REPORT.PDF".data) = ".pdf".data ∧
    ((DocumentProcessor.mk 3 1).load_file sampleLoaders "REPORT.PDF".data
        = sampleLoaders.load_pdf "REPORT.PDF".data) ∧
    pyLower (pySuffix "REPORT.PDF".data) ∈ DocumentProcessor.SUPPORTED_EXTENSIONS ∧
    ((DocumentProcessor.mk 3 1).load_from_uploaded_file sampleLoaders (.ok ())
        "REPORT.PDF".data "/t".data).tmp_created = true :=
  ⟨by decide,
   (C10_case_insensitive_dispatch (DocumentProcessor.mk 3 1) sampleLoaders
     (.ok ()) "REPORT.PDF".data "REPORT.PDF".data "/t".data).1 (by decide),
   by decide,
   ((C10_case_insensitive_dispatch (DocumentProcessor.mk 3 1) sampleLoaders
     (.ok ()) "REPORT.PDF".data "REPORT.PDF".data "/t".data).2.2.2 (by decide)).1⟩

end RagQnA
